import Mathlib

/-!
Shallow embedding of the markdown table-processing scripts
(reorder_columns.py, reverse_table.py, split_by_year.py) and proofs of
the specification claims about them.

A Python string is modelled as a `List Char`; Python text operations
(strip, split, startswith, the `in` operator) are re-implemented below
with the same semantics on lists of characters.
-/

namespace MdScripts

/-- A line of text, as the scripts manipulate it: a sequence of characters. -/
abbrev Line := List Char

/-- Python `str.strip()` on the left: drop leading whitespace. -/
def stripL (s : Line) : Line := s.dropWhile Char.isWhitespace

/-- Python `str.strip()` on the right: drop trailing whitespace. -/
def stripR (s : Line) : Line := (s.reverse.dropWhile Char.isWhitespace).reverse

/-- Python `str.strip()`: drop leading and trailing whitespace. -/
def strip (s : Line) : Line := stripR (stripL s)

/-- Python `s.startswith(p)`: does `s` begin with `p`? -/
def startsW : Line → Line → Bool
  | [], _ => true
  | _ :: _, [] => false
  | a :: p, b :: s => a == b && startsW p s

/-- Python `s.endswith(p)`: does `s` end with `p`? -/
def endsW (p s : Line) : Bool := startsW p.reverse s.reverse

/-- Python `n in hay` for strings: does `n` occur as a contiguous substring? -/
def subIn (n : Line) : Line → Bool
  | [] => startsW n []
  | c :: s => startsW n (c :: s) || subIn n s

/-- Python `s.split(c)` for a single-character separator `c`. -/
def splitOnChar (c : Char) : Line → List Line
  | [] => [[]]
  | a :: s =>
    match splitOnChar c s with
    | [] => [[]]
    | h :: t => if a == c then [] :: h :: t else (a :: h) :: t

/-- Python `c.join(parts)` for a single-character separator `c`. -/
def intercalateC (c : Char) : List Line → Line
  | [] => []
  | [l] => l
  | l :: l2 :: ls => l ++ c :: intercalateC c (l2 :: ls)

/-- ASCII decimal digit test. -/
def digitChar (c : Char) : Bool := '0' ≤ c && c ≤ '9'

/-- Numeric value of an ASCII digit. -/
def digitVal (c : Char) : Nat := c.toNat - '0'.toNat

namespace ReverseTable

/-- Table-line test of reverse_markdown_table:
Python `'|' in line and line.strip()` (a non-empty strip result is truthy). -/
def isTableLine (l : Line) : Bool := subIn ['|'] l && !(strip l).isEmpty

/-- Separator-row test of the no-header branch of process_table:
Python `'---' in line or ':-:' in line or ':--' in line or '--:' in line`. -/
def sepMark (l : Line) : Bool :=
  subIn ("---".data) l || subIn (":-:".data) l ||
  subIn (":--".data) l || subIn ("--:".data) l

/-- The separator search loop (`for i, line in enumerate(all_rows): ... break`),
carrying the running index. -/
def findSepIdx : List Line → Nat → Option Nat
  | [], _ => none
  | l :: ls, i => if sepMark l then some i else findSepIdx ls (i + 1)

/-- Separator relocation of the no-header branch: if the first row matching
`sepMark` sits at an index other than 1, pop it and insert it at index 1. -/
def moveSepTo1 (rows : List Line) : List Line :=
  match findSepIdx rows 0 with
  | none => rows
  | some i =>
    if i = 1 then rows
    else (rows.eraseIdx i).take 1 ++ rows.getD i [] :: (rows.eraseIdx i).drop 1

/-- process_table from reverse_table.py.  In the keep-header branch the source
names `table_lines[0]`, `table_lines[1]` and `table_lines[2:]`, i.e.
`take 2` and `drop 2`. -/
def process_table (table_lines : List Line) (keep_header : Bool) : List Line :=
  if table_lines.length ≤ 1 then table_lines
  else if keep_header then
    if table_lines.length ≤ 2 then table_lines
    else table_lines.take 2 ++ (table_lines.drop 2).reverse
  else
    if table_lines.length ≤ 2 then table_lines.reverse
    else moveSepTo1 table_lines.reverse

/-- The scanning loop of reverse_markdown_table; `tbl` is the pending run of
table lines (the source's `in_table` flag holds exactly when `tbl` is
non-empty, so the flush guards test emptiness of `tbl`). -/
def rmtAux (keep : Bool) : List Line → List Line → List Line
  | [], tbl => if tbl.isEmpty then [] else process_table tbl keep
  | l :: ls, tbl =>
    if isTableLine l then rmtAux keep ls (tbl ++ [l])
    else (if tbl.isEmpty then [] else process_table tbl keep) ++ l :: rmtAux keep ls []

/-- reverse_markdown_table from reverse_table.py: split on newlines, group
maximal runs of table lines, process each run, rejoin. -/
def reverse_markdown_table (content : Line) (keep_header : Bool) : Line :=
  intercalateC '\n' (rmtAux keep_header (splitOnChar '\n' content) [])

end ReverseTable

namespace ReorderColumns

/-- The scan of parse_frontmatter over `lines[1:]`: append each line to the
accumulated frontmatter and stop at the first line whose strip starts with
`---`, returning the frontmatter and the remaining lines. -/
def fmLoop (acc : List Line) : List Line → Option (List Line × List Line)
  | [] => none
  | l :: ls =>
    if startsW ("---".data) (strip l) then some (acc ++ [l], ls)
    else fmLoop (acc ++ [l]) ls

/-- parse_frontmatter from reorder_columns.py: the opening and the closing
test are both `line.strip().startswith('---')`; when no closing line is
found the whole input is returned as body. -/
def parse_frontmatter (lines : List Line) : List Line × List Line :=
  match lines with
  | [] => ([], [])
  | l0 :: rest =>
    if startsW ("---".data) (strip l0) then
      match fmLoop [l0] rest with
      | some (fm, rem) => (fm, rem)
      | none => ([], l0 :: rest)
    else ([], l0 :: rest)

/-- Python `line.rstrip('\n\r')`. -/
def rstripNL (s : Line) : Line :=
  (s.reverse.dropWhile (fun c => c == '\n' || c == '\r')).reverse

/-- Python `if parts and parts[0].strip() == '': parts = parts[1:]`. -/
def dropFirstBlank (parts : List Line) : List Line :=
  match parts with
  | [] => []
  | p :: ps => if (strip p).isEmpty then ps else p :: ps

/-- Python `if parts and parts[-1].strip() == '': parts = parts[:-1]`. -/
def dropLastBlank (parts : List Line) : List Line :=
  (dropFirstBlank parts.reverse).reverse

/-- parse_table_row from reorder_columns.py: the cell list of a table row,
or none when the line is not shaped like one.  (The second Python return
value is the rstripped original line, recomputed where needed.) -/
def parse_table_row (line : Line) : Option (List Line) :=
  let original := rstripNL line
  if ¬ subIn ['|'] original then none
  else
    let stripped := strip original
    if ¬ (startsW ['|'] stripped && endsW ['|'] stripped) then none
    else
      let parts := dropLastBlank (dropFirstBlank (splitOnChar '|' original))
      if parts.isEmpty then none else some parts

/-- format_table_row from reorder_columns.py:
`'|' + '|'.join(columns) + '|'`. -/
def format_table_row (columns : List Line) : Line :=
  '|' :: (intercalateC '|' columns ++ ['|'])

/-- Python list indexing `l[i]` with an int index: negative indices count
from the end; out of range yields none (an IndexError). -/
def pyIndex (l : List Line) (i : Int) : Option Line :=
  if 0 ≤ i then l.get? i.toNat
  else if 0 ≤ i + l.length then l.get? (i + l.length).toNat
  else none

/-- The comprehension `[columns[i] for i in order]`, failing at the first
out-of-range index. -/
def mapPyIndex (cols : List Line) : List Int → Option (List Line)
  | [] => some []
  | i :: is =>
    match pyIndex cols i with
    | none => none
    | some x => (mapPyIndex cols is).map (x :: ·)

/-- reorder_columns from reorder_columns.py: an IndexError is re-raised as
`ValueError("Invalid column index in order: ...")`. -/
def reorder_columns (columns : List Line) (order : List Int) :
    Except Line (List Line) :=
  match mapPyIndex columns order with
  | some r => .ok r
  | none => .error ("Invalid column index in order: list index out of range".data)

/-- The text of the column-count mismatch ValueError raised by
process_table, naming the actual and the expected cell count. -/
def mismatchMsg (ncols nord : Nat) : Line :=
  "Column count mismatch: table has ".data ++ Nat.toDigits 10 ncols ++
    " columns, but order specifies ".data ++ Nat.toDigits 10 nord ++
    " columns".data

/-- process_table from reorder_columns.py: each line that parses as a table
row must have exactly `order.length` cells (else the mismatch ValueError);
parsed rows are reordered, reformatted and get a newline appended; other
lines pass through. -/
def process_table (table_lines : List Line) (order : List Int) :
    Except Line (List Line) :=
  match table_lines with
  | [] => .ok []
  | l :: ls =>
    match parse_table_row l with
    | none => (process_table ls order).map (l :: ·)
    | some columns =>
      if columns.length ≠ order.length then
        .error (mismatchMsg columns.length order.length)
      else
        match reorder_columns columns order with
        | .error e => .error e
        | .ok reordered =>
          (process_table ls order).map ((format_table_row reordered ++ ['\n']) :: ·)

/-- Whether a line is swept into a table block by find_and_process_tables. -/
def isRow (l : Line) : Bool := (parse_table_row l).isSome

/-- find_and_process_tables from reorder_columns.py: walk the lines; a line
that parses as a table row starts a maximal run of such lines (the inner
while loop), which is processed as one table; other lines pass through. -/
def find_and_process_tables (lines : List Line) (order : List Int) :
    Except Line (List Line) :=
  match lines with
  | [] => .ok []
  | l :: ls =>
    if isRow l then
      -- the maximal run is `(l :: ls).takeWhile isRow` and, since `isRow l`
      -- holds here, the remainder `(l :: ls).dropWhile isRow` is
      -- `ls.dropWhile isRow`
      match process_table ((l :: ls).takeWhile isRow) order with
      | .error e => .error e
      | .ok processed =>
        (find_and_process_tables (ls.dropWhile isRow) order).map
          (processed ++ ·)
    else
      (find_and_process_tables ls order).map (l :: ·)
  termination_by lines.length
  decreasing_by
  · simp only [List.length_cons]
    exact Nat.lt_succ_of_le (List.dropWhile_sublist _).length_le
  · simp only [List.length_cons]
    exact Nat.lt_succ_of_le (Nat.le_refl _)

/-- Python `s.replace(',', ' ')`. -/
def commaToSpace (s : Line) : Line :=
  s.map (fun c => if c == ',' then ' ' else c)

/-- Python `s.split()` with no argument: split on runs of whitespace,
producing no empty tokens. -/
def pySplitWs : Line → List Line
  | [] => []
  | c :: rest =>
    let ws := pySplitWs rest
    if c.isWhitespace then ws
    else
      match rest with
      | [] => [[c]]
      | d :: _ =>
        if d.isWhitespace then [c] :: ws
        else
          match ws with
          | [] => [[c]]
          | w :: ws' => (c :: w) :: ws'

/-- Digit-sequence part of Python `int()`: ASCII digits where a single
underscore may separate two digits (no leading, trailing or doubled
underscore). -/
def pyDigitsAux (acc : Nat) : List Char → Option Nat
  | [] => some acc
  | c :: rest =>
    if digitChar c then pyDigitsAux (acc * 10 + digitVal c) rest
    else if c == '_' then
      match rest with
      | [] => none
      | d :: rest' =>
        if digitChar d then pyDigitsAux (acc * 10 + digitVal d) rest'
        else none
    else none

/-- Nonempty digit sequence, first character a digit. -/
def pyDigits : List Char → Option Nat
  | [] => none
  | c :: rest => if digitChar c then pyDigitsAux (digitVal c) rest else none

/-- Python `int(token)` for tokens produced by `str.split()` (hence with no
inner whitespace): optional sign followed by a digit sequence. -/
def pyInt (s : Line) : Option Int :=
  match s with
  | '+' :: rest => (pyDigits rest).map Int.ofNat
  | '-' :: rest => (pyDigits rest).map (fun n => -(n : Int))
  | _ => (pyDigits s).map Int.ofNat

/-- The comprehension `[int(x) for x in order_str.split()]`, failing at the
first bad token. -/
def mapPyInt : List Line → Option (List Int)
  | [] => some []
  | t :: ts =>
    match pyInt t with
    | none => none
    | some n => (mapPyInt ts).map (n :: ·)

/-- Python `list(range(n))` as ints. -/
def rangeInt (n : Nat) : List Int := (List.range n).map Int.ofNat

/-- parse_column_order from reorder_columns.py: replace commas by spaces,
split, parse each token as an int, and require `sorted(order)` to equal
`list(range(len(order)))`; both failure modes raise a ValueError. -/
def parse_column_order (order_str : Line) : Except Line (List Int) :=
  match mapPyInt (pySplitWs (commaToSpace order_str)) with
  | none => .error ("Invalid column order format: invalid literal for int".data)
  | some order =>
    if List.insertionSort (fun a b => a ≤ b) order = rangeInt order.length then
      .ok order
    else
      .error ("Invalid column order format: Column order must be a permutation of column indices starting from 0".data)

/-- The file-level flow of main() once the order is parsed: split off the
frontmatter, process the body tables, and reassemble; a processing
ValueError aborts with no output. -/
def run_reorder (lines : List Line) (order : List Int) :
    Except Line (List Line) :=
  match find_and_process_tables (parse_frontmatter lines).2 order with
  | .error e => .error e
  | .ok processed => .ok ((parse_frontmatter lines).1 ++ processed)

/-- CLI-level model of main(): exit code and written output.  The order
string is parsed before the file is read or any table is touched; a parse
or processing error exits 1 and writes nothing. -/
def main_reorder (order_str : Line) (fileLines : List Line) :
    Nat × Option (List Line) :=
  match parse_column_order order_str with
  | .error _ => (1, none)
  | .ok order =>
    match run_reorder fileLines order with
    | .error _ => (1, none)
    | .ok result => (0, some result)

end ReorderColumns

namespace SplitByYear

/-- The key of a bucket in `rows_by_year`: a year, or none for the literal
`"unknown"` key. -/
abbrev YearKey := Option Nat

/-- Full month names, lowercase, with their numbers; strptime's %B matches
them case-insensitively (no name is a prefix of another, so match order is
irrelevant). -/
def monthNames : List (Line × Nat) :=
  [("january".data, 1), ("february".data, 2), ("march".data, 3),
   ("april".data, 4), ("may".data, 5), ("june".data, 6), ("july".data, 7),
   ("august".data, 8), ("september".data, 9), ("october".data, 10),
   ("november".data, 11), ("december".data, 12)]

/-- ASCII lowercasing, for the case-insensitive %B match. -/
def lowerC (c : Char) : Char :=
  if 'A' ≤ c && c ≤ 'Z' then Char.ofNat (c.toNat + 32) else c

/-- Match one of the month names as a prefix of `s` (case-insensitively),
returning the month number and the rest of `s`. -/
def matchMonth : List (Line × Nat) → Line → Option (Nat × Line)
  | [], _ => none
  | (name, m) :: rest, s =>
    if startsW name (s.map lowerC) then some (m, s.drop name.length)
    else matchMonth rest s

/-- One-or-more whitespace, as a literal blank in a strptime format
(compiled to the regex `\s+`); returns the rest of the input. -/
def wsplus : Line → Option Line
  | [] => none
  | c :: rest =>
    if c.isWhitespace then some (rest.dropWhile Char.isWhitespace) else none

/-- strptime's %d: one or two digits valued 1..31 (regex
`3[01]|[12]\d|0[1-9]|[1-9]`).  Two digits are preferred; since the next
format character here is a comma, falling back to one digit exactly when
the two-digit reading is not in range is equivalent to the regex
backtracking. -/
def parseDay : Line → Option (Nat × Line)
  | [] => none
  | c1 :: rest1 =>
    if ¬ digitChar c1 then none
    else
      match rest1 with
      | c2 :: rest2 =>
        if digitChar c2 then
          if 1 ≤ digitVal c1 * 10 + digitVal c2 ∧
              digitVal c1 * 10 + digitVal c2 ≤ 31 then
            some (digitVal c1 * 10 + digitVal c2, rest2)
          else if 1 ≤ digitVal c1 then some (digitVal c1, rest1)
          else none
        else if 1 ≤ digitVal c1 then some (digitVal c1, rest1)
        else none
      | [] => if 1 ≤ digitVal c1 then some (digitVal c1, []) else none

/-- strptime's %Y: exactly four digits. -/
def parseYear4 : Line → Option (Nat × Line)
  | a :: b :: c :: d :: rest =>
    if digitChar a && digitChar b && digitChar c && digitChar d then
      some (((digitVal a * 10 + digitVal b) * 10 + digitVal c) * 10
        + digitVal d, rest)
    else none
  | _ => none

/-- Gregorian leap year, as datetime uses. -/
def isLeap (y : Nat) : Bool := (y % 4 = 0 && y % 100 ≠ 0) || y % 400 = 0

/-- Days in a month, as datetime validates. -/
def daysInMonth (m y : Nat) : Nat :=
  if m = 2 then (if isLeap y then 29 else 28)
  else if m = 4 || m = 6 || m = 9 || m = 11 then 30 else 31

/-- Modelled `datetime.strptime(s, "%B %d, %Y").year`: month name,
whitespace, day, comma, whitespace, four-digit year, end of input; then
the datetime constructor requires year ≥ 1 and a day valid for the month.
Returns the year. -/
def strptimeBdY (s : Line) : Option Nat :=
  match matchMonth monthNames s with
  | none => none
  | some (m, r1) =>
    match wsplus r1 with
    | none => none
    | some r2 =>
      match parseDay r2 with
      | none => none
      | some (d, r3) =>
        match r3 with
        | ',' :: r4 =>
          match wsplus r4 with
          | none => none
          | some r5 =>
            match parseYear4 r5 with
            | some (y, []) =>
              if 1 ≤ y ∧ d ≤ daysInMonth m y then some y else none
            | _ => none
        | _ => none

/-- parse_date from split_by_year.py: empty or blank input is none; the
text before a `→` (stripped) is used when one is present; the result is
the strptime year, or none when parsing fails. -/
def parse_date (date_str : Line) : Option Nat :=
  if (strip date_str).isEmpty then none
  else
    let d :=
      if subIn ['→'] date_str then
        strip (date_str.takeWhile (fun c => ¬ c == '→'))
      else date_str
    strptimeBdY (strip d)

/-- The metadata scan of split_markdown_by_year: walks all lines keeping a
running index and an in-metadata flag; a line stripping to exactly `---`
opens, a second one closes (breaking with `metadata_end = i + 1`); lines
in between are collected.  Returns (metadata_lines, content_start); with
no closing delimiter content_start is 0 while the collected lines are
still returned, as in the source. -/
def metaScanAux : List Line → Nat → Bool → List Line → (List Line × Nat)
  | [], _, _, acc => (acc, 0)
  | l :: ls, i, inMeta, acc =>
    if strip l = "---".data then
      if inMeta then (acc ++ [l], i + 1)
      else metaScanAux ls (i + 1) true (acc ++ [l])
    else if inMeta then metaScanAux ls (i + 1) inMeta (acc ++ [l])
    else metaScanAux ls (i + 1) inMeta acc

/-- Metadata lines and content start index of a document. -/
def metaScan (lines : List Line) : List Line × Nat :=
  metaScanAux lines 0 false []

/-- The header search: the first line from content_start on containing
`|`, `Name` and `date`.  Returns the header, `lines[i+1]` as the separator
when it exists, and the lines from `table_start + 2` on (the data-row
region). -/
def findHeader : List Line → Option (Line × Option Line × List Line)
  | [] => none
  | l :: ls =>
    if subIn ['|'] l && subIn ("Name".data) l && subIn ("date".data) l then
      some (l, ls.head?, ls.drop 1)
    else findHeader ls

/-- Classification of one line of the data-row region: none when the loop
skips it (blank, not pipe-prefixed, or fewer than 3 `|`-split columns);
otherwise the bucket key from parsing column 2 (`if year:` sends a falsy
— absent or zero — year to `unknown`). -/
def rowKey (line : Line) : Option YearKey :=
  if (strip line).isEmpty || !(startsW ['|'] (strip line)) then none
  else
    let columns := (splitOnChar '|' line).map strip
    if columns.length < 3 then none
    else
      match parse_date (columns.getD 2 []) with
      | some y => if y ≠ 0 then some (some y) else some none
      | none => some none

/-- Python `rows_by_year[key].append(line)` on an insertion-ordered association
list (the defaultdict). -/
def addRow (m : List (YearKey × List Line)) (k : YearKey) (r : Line) :
    List (YearKey × List Line) :=
  match m with
  | [] => [(k, [r])]
  | (k', rs) :: rest =>
    if k' = k then (k', rs ++ [r]) :: rest
    else (k', rs) :: addRow rest k r

/-- One iteration of the bucketing loop: skip the line or append it to its
bucket. -/
def bucketStep (m : List (YearKey × List Line)) (line : Line) :
    List (YearKey × List Line) :=
  match rowKey line with
  | none => m
  | some k => addRow m k line

/-- The bucketing loop over the data-row region. -/
def rows_by_year (rows : List Line) : List (YearKey × List Line) :=
  rows.foldl bucketStep []

/-- Bucket lookup ([] when the key is absent). -/
def bucket (m : List (YearKey × List Line)) (k : YearKey) : List Line :=
  match m with
  | [] => []
  | (k', rs) :: rest => if k' = k then rs else bucket rest k

/-- Python `sorted([y for y in rows_by_year.keys() if y != 'unknown'])`, with
`'unknown'` appended when present. -/
def sortedYears (m : List (YearKey × List Line)) : List YearKey :=
  (List.insertionSort (fun a b => a ≤ b) (m.filterMap (fun p => p.1))).map
      some ++
    (if m.any (fun p => p.1 = none) then [none] else [])

/-- The name `<stem>_<year>.md`, or `<stem>_unknown_dates.md` for the unknown
key. -/
def fileName (stem : Line) (k : YearKey) : Line :=
  match k with
  | some y => stem ++ "_".data ++ Nat.toDigits 10 y ++ ".md".data
  | none => stem ++ "_unknown_dates.md".data

/-- The sequence of strings written into one output file: the metadata
lines followed by one bare newline when metadata exists, the header, the
separator, then the bucket's rows.  (A missing separator can only occur
when the header is the last line, in which case no bucket is ever
non-empty and no file is written, so writing nothing for it here is
unreachable.) -/
def fileFor (metadata : List Line) (header : Line) (sep : Option Line)
    (rows : List Line) : List Line :=
  (if metadata.isEmpty then [] else metadata ++ ["\n".data]) ++ [header] ++
    (match sep with | some s => [s] | none => []) ++ rows

/-- split_markdown_by_year on an existing file's lines: none when no
header line with `|`, `Name` and `date` is found (the error is printed and
nothing is written); otherwise the created files in creation order —
ascending years, then the unknown file — as (name, written strings). -/
def split_markdown_by_year (stem : Line) (lines : List Line) :
    Option (List (Line × List Line)) :=
  match findHeader (lines.drop (metaScan lines).2) with
  | none => none
  | some (header, sep, rowsRegion) =>
    some ((sortedYears (rows_by_year rowsRegion)).map (fun k =>
      (fileName stem k,
        fileFor (metaScan lines).1 header sep
          (bucket (rows_by_year rowsRegion) k))))

/-- Outcome of one script invocation: interpreter exit code, files
created, and whether an error message was printed. -/
structure RunOutcome where
  exitCode : Nat
  files : List (Line × List Line)
  errorReported : Bool
  deriving DecidableEq

/-- Script-level model of split_by_year.py invoked with exactly one
argument (the `__main__` guard calls sys.exit(1) only for a wrong argument
count): split_markdown_by_year prints its error messages and returns
normally in both failure cases — missing file and missing header — so the
interpreter exits 0 in every case. -/
def script_run (stem : Line) (file : Option (List Line)) : RunOutcome :=
  match file with
  | none => ⟨0, [], true⟩
  | some lines =>
    match split_markdown_by_year stem lines with
    | none => ⟨0, [], true⟩
    | some files => ⟨0, files, false⟩

end SplitByYear

/-! ## Lemmas about the character-list utilities -/

theorem splitOnChar_ne_nil (c : Char) (s : Line) : splitOnChar c s ≠ [] := by
  induction s with
  | nil => simp [splitOnChar]
  | cons a s ih =>
    simp only [splitOnChar]
    rcases h : splitOnChar c s with _ | ⟨h', t⟩
    · exact absurd h ih
    · by_cases hac : (a == c) <;> simp [hac]

theorem not_mem_of_mem_splitOnChar (c : Char) (s : Line) :
    ∀ p ∈ splitOnChar c s, c ∉ p := by
  induction s with
  | nil => intro p hp; simp [splitOnChar] at hp; simp [hp]
  | cons a s ih =>
    intro p hp
    simp only [splitOnChar] at hp
    rcases h : splitOnChar c s with _ | ⟨h', t⟩
    · exact absurd h (splitOnChar_ne_nil c s)
    · rw [h] at hp
      by_cases hac : a == c
      · simp [hac] at hp
        rcases hp with hp | hp | hp
        · simp [hp]
        · exact ih h' (by rw [h]; exact List.mem_cons_self _ _) ∘ (hp ▸ id)
        · exact ih p (by rw [h]; exact List.mem_cons_of_mem _ hp)
      · simp [hac] at hp
        rcases hp with hp | hp
        · subst hp
          intro hmem
          rcases List.mem_cons.mp hmem with rfl | hmem
          · simp at hac
          · exact ih h' (by rw [h]; exact List.mem_cons_self _ _) hmem
        · exact ih p (by rw [h]; exact List.mem_cons_of_mem _ hp)

theorem splitOnChar_intercalateC (c : Char) (ps : List Line)
    (hne : ps ≠ []) (hfree : ∀ p ∈ ps, c ∉ p) :
    splitOnChar c (intercalateC c ps) = ps := by
  induction ps with
  | nil => exact absurd rfl hne
  | cons p ps ih =>
    rcases ps with _ | ⟨q, ps'⟩
    · -- single part: splitting a c-free line yields just that line
      simp only [intercalateC]
      have hp : c ∉ p := hfree p (List.mem_cons_self _ _)
      clear ih hne hfree
      induction p with
      | nil => simp [splitOnChar]
      | cons a p ihp =>
        have ha : ¬ a == c := by
          simp only [beq_iff_eq]
          intro h; exact hp (h ▸ List.mem_cons_self _ _)
        have hp' : c ∉ p := fun h => hp (List.mem_cons_of_mem _ h)
        simp only [splitOnChar, ihp hp', ha]
        simp
    · -- at least two parts
      have hrest : splitOnChar c (intercalateC c (q :: ps')) = q :: ps' :=
        ih (by simp) (fun r hr => hfree r (List.mem_cons_of_mem _ hr))
      have hp : c ∉ p := hfree p (List.mem_cons_self _ _)
      simp only [intercalateC]
      clear ih hne hfree
      induction p with
      | nil =>
        simp only [List.nil_append, splitOnChar, hrest]
        simp
      | cons a p ihp =>
        have ha : ¬ a == c := by
          simp only [beq_iff_eq]
          intro h; exact hp (h ▸ List.mem_cons_self _ _)
        have hp' : c ∉ p := fun h => hp (List.mem_cons_of_mem _ h)
        simp only [List.cons_append, splitOnChar, List.append_eq]
        rw [ihp hp']
        simp [ha]

theorem intercalateC_splitOnChar (c : Char) (s : Line) :
    intercalateC c (splitOnChar c s) = s := by
  induction s with
  | nil => simp [splitOnChar, intercalateC]
  | cons a s ih =>
    simp only [splitOnChar]
    rcases h : splitOnChar c s with _ | ⟨h', t⟩
    · exact absurd h (splitOnChar_ne_nil c s)
    · rw [h] at ih
      by_cases hac : a = c
      · subst hac
        simp only [beq_self_eq_true, if_true]
        show a :: intercalateC a (h' :: t) = a :: s
        rw [ih]
      · have hac' : (a == c) = false := by simpa using hac
        simp only [hac', Bool.false_eq_true, if_false]
        rcases t with _ | ⟨t1, t2⟩
        · show a :: h' = a :: s
          rw [show h' = s from ih]
        · show (a :: h') ++ c :: intercalateC c (t1 :: t2) = a :: s
          rw [List.cons_append, ← ih]
          rfl

/-! ## Lemmas about reverse_table.py -/

namespace ReverseTable

theorem findSepIdx_bounds (rows : List Line) :
    ∀ s i, findSepIdx rows s = some i → s ≤ i ∧ i < s + rows.length := by
  induction rows with
  | nil => intro s i h; simp [findSepIdx] at h
  | cons l ls ih =>
    intro s i h
    simp only [findSepIdx] at h
    by_cases hl : sepMark l
    · simp [hl] at h
      simp only [List.length_cons]
      omega
    · simp [hl] at h
      have := ih (s + 1) i h
      simp only [List.length_cons]
      omega

theorem mem_moveSepTo1 (rows : List Line) (x : Line)
    (hx : x ∈ moveSepTo1 rows) : x ∈ rows := by
  unfold moveSepTo1 at hx
  rcases hf : findSepIdx rows 0 with _ | i <;> rw [hf] at hx
  · exact hx
  · have hi : i < rows.length := by
      have := findSepIdx_bounds rows 0 i hf; omega
    by_cases h1 : i = 1
    · simpa [h1] using hx
    · simp only [h1, if_false] at hx
      have hsub : rows.eraseIdx i ⊆ rows := by
        rw [List.eraseIdx_eq_take_drop_succ]
        intro y hy
        rcases List.mem_append.mp hy with h | h
        · exact List.take_subset _ _ h
        · exact List.drop_subset _ _ h
      rcases List.mem_append.mp hx with h | h
      · exact hsub (List.take_subset _ _ h)
      · rcases List.mem_cons.mp h with rfl | h
        · rw [List.getD_eq_getElem _ _ hi]
          exact List.getElem_mem _
        · exact hsub (List.drop_subset _ _ h)

theorem length_moveSepTo1 (rows : List Line) :
    (moveSepTo1 rows).length = rows.length := by
  unfold moveSepTo1
  rcases hf : findSepIdx rows 0 with _ | i
  · rfl
  · have hi : i < rows.length := by
      have := findSepIdx_bounds rows 0 i hf; omega
    by_cases h1 : i = 1
    · simp [h1]
    · simp only [h1, if_false]
      rw [List.eraseIdx_eq_take_drop_succ]
      simp only [List.length_append, List.length_take, List.length_cons,
        List.length_drop]
      omega

theorem length_process_table (t : List Line) (k : Bool) :
    (process_table t k).length = t.length := by
  unfold process_table
  by_cases h1 : t.length ≤ 1
  · simp [h1]
  · by_cases h2 : t.length ≤ 2 <;> cases k <;>
      simp [h1, h2, length_moveSepTo1, List.length_take, List.length_drop]
    all_goals omega

theorem mem_process_table {t : List Line} {k : Bool} {x : Line}
    (hx : x ∈ process_table t k) : x ∈ t := by
  unfold process_table at hx
  by_cases h1 : t.length ≤ 1
  · simpa [h1] using hx
  · by_cases h2 : t.length ≤ 2 <;> cases k <;> simp only [h1, h2, if_true,
      if_false, Bool.false_eq_true, Bool.true_eq_false] at hx
    · simpa using hx
    · exact hx
    · simpa using mem_moveSepTo1 _ _ hx
    · rcases List.mem_append.mp hx with h | h
      · exact List.take_subset _ _ h
      · exact List.drop_subset _ _ (by simpa using h)

theorem process_table_keep_of_le (t : List Line) (h : t.length ≤ 2) :
    process_table t true = t := by
  by_cases h1 : t.length ≤ 1 <;> simp [process_table, h1, h]

theorem process_table_keep_of_lt (t : List Line) (h : 2 < t.length) :
    process_table t true = t.take 2 ++ (t.drop 2).reverse := by
  have h1 : ¬ t.length ≤ 1 := by omega
  have h2 : ¬ t.length ≤ 2 := by omega
  simp [process_table, h1, h2]

theorem process_table_keep_involutive (t : List Line) :
    process_table (process_table t true) true = t := by
  by_cases h2 : t.length ≤ 2
  · rw [process_table_keep_of_le t h2, process_table_keep_of_le t h2]
  · have h : 2 < t.length := by omega
    rw [process_table_keep_of_lt t h]
    have htk : (t.take 2).length = 2 := by
      rw [List.length_take]; omega
    have hlen : 2 < (t.take 2 ++ (t.drop 2).reverse).length := by
      simp only [List.length_append, List.length_reverse, List.length_drop, htk]
      omega
    rw [process_table_keep_of_lt _ hlen]
    rw [List.take_left' htk, List.drop_left' htk]
    rw [List.reverse_reverse, List.take_append_drop]

theorem flush_eq (k : Bool) (tbl : List Line) :
    (if tbl.isEmpty then ([] : List Line) else process_table tbl k) =
      process_table tbl k := by
  cases tbl <;> simp [process_table]

theorem rmtAux_nil (k : Bool) (tbl : List Line) :
    rmtAux k [] tbl = process_table tbl k := by
  simp only [rmtAux]
  exact flush_eq k tbl

theorem rmtAux_allTable (k : Bool) (r : List Line)
    (hr : ∀ x ∈ r, isTableLine x) :
    ∀ tbl, rmtAux k r tbl = process_table (tbl ++ r) k := by
  induction r with
  | nil => intro tbl; rw [rmtAux_nil, List.append_nil]
  | cons l ls ih =>
    intro tbl
    have hl : isTableLine l := hr l (List.mem_cons_self _ _)
    simp only [rmtAux, hl, if_true]
    rw [ih (fun x hx => hr x (List.mem_cons_of_mem _ hx)) (tbl ++ [l])]
    simp

theorem rmtAux_consume (k : Bool) (r : List Line)
    (hr : ∀ x ∈ r, isTableLine x) (l : Line) (hl : ¬ isTableLine l)
    (rest : List Line) :
    ∀ tbl, rmtAux k (r ++ l :: rest) tbl
      = process_table (tbl ++ r) k ++ l :: rmtAux k rest [] := by
  induction r with
  | nil =>
    intro tbl
    simp only [List.nil_append, rmtAux, hl, Bool.false_eq_true, if_false,
      List.append_nil]
    rw [flush_eq]
  | cons a r' ih =>
    intro tbl
    have ha : isTableLine a := hr a (List.mem_cons_self _ _)
    simp only [List.cons_append, rmtAux, ha, if_true, List.append_eq]
    rw [ih (fun x hx => hr x (List.mem_cons_of_mem _ hx)) (tbl ++ [a])]
    simp

theorem mem_rmtAux (k : Bool) (lines : List Line) :
    ∀ tbl x, x ∈ rmtAux k lines tbl → x ∈ tbl ∨ x ∈ lines := by
  induction lines with
  | nil =>
    intro tbl x hx
    rw [rmtAux_nil] at hx
    exact Or.inl (mem_process_table hx)
  | cons l ls ih =>
    intro tbl x hx
    simp only [rmtAux] at hx
    by_cases hl : isTableLine l
    · simp only [hl, if_true] at hx
      rcases ih (tbl ++ [l]) x hx with h | h
      · rcases List.mem_append.mp h with h | h
        · exact Or.inl h
        · simp at h; simp [h]
      · exact Or.inr (List.mem_cons_of_mem _ h)
    · simp only [hl, if_false] at hx
      rw [flush_eq] at hx
      rcases List.mem_append.mp hx with h | h
      · exact Or.inl (mem_process_table h)
      · rcases List.mem_cons.mp h with rfl | h
        · simp
        · rcases ih [] x h with h' | h'
          · simp at h'
          · exact Or.inr (List.mem_cons_of_mem _ h')

theorem rmtAux_ne_nil (k : Bool) (lines : List Line) :
    ∀ tbl, lines ≠ [] ∨ tbl ≠ [] → rmtAux k lines tbl ≠ [] := by
  induction lines with
  | nil =>
    intro tbl h
    rw [rmtAux_nil]
    have htbl : tbl ≠ [] := by tauto
    intro hc
    have := length_process_table tbl k
    rw [hc] at this
    exact htbl (List.length_eq_zero.mp this.symm)
  | cons l ls ih =>
    intro tbl _
    simp only [rmtAux]
    by_cases hl : isTableLine l
    · simp only [hl, if_true]
      exact ih (tbl ++ [l]) (Or.inr (by simp))
    · simp only [hl, if_false]
      intro hc
      have := congrArg List.length hc
      simp at this

theorem rmtAux_keep_involutive (lines : List Line) :
    ∀ tbl, (∀ x ∈ tbl, isTableLine x) →
      rmtAux true (rmtAux true lines tbl) [] = tbl ++ lines := by
  induction lines with
  | nil =>
    intro tbl htbl
    rw [rmtAux_nil]
    have hall : ∀ x ∈ process_table tbl true, isTableLine x :=
      fun x hx => htbl x (mem_process_table hx)
    rw [rmtAux_allTable true _ hall [], List.nil_append,
      process_table_keep_involutive, List.append_nil]
  | cons l ls ih =>
    intro tbl htbl
    by_cases hl : isTableLine l
    · simp only [rmtAux, hl, if_true]
      rw [ih (tbl ++ [l]) ?side]
      · simp
      case side =>
        intro x hx
        rcases List.mem_append.mp hx with h | h
        · exact htbl x h
        · simp at h; simpa [h] using hl
    · simp only [rmtAux, hl, Bool.false_eq_true, if_false]
      rw [flush_eq]
      have hall : ∀ x ∈ process_table tbl true, isTableLine x :=
        fun x hx => htbl x (mem_process_table hx)
      rw [rmtAux_consume true (process_table tbl true) hall l hl
        (rmtAux true ls []) [], List.nil_append,
        process_table_keep_involutive, ih [] (by simp)]
      simp

end ReverseTable

/-! ## Lemmas about reorder_columns.py -/

namespace ReorderColumns

theorem fmLoop_none (ls : List Line) :
    ∀ acc, (∀ l ∈ ls, startsW ("---".data) (strip l) = false) →
      fmLoop acc ls = none := by
  induction ls with
  | nil => intro acc _; rfl
  | cons l ls ih =>
    intro acc h
    have hl := h l (List.mem_cons_self _ _)
    simp only [fmLoop, hl, Bool.false_eq_true, if_false]
    exact ih _ (fun x hx => h x (List.mem_cons_of_mem _ hx))

theorem pyIndex_of_bounds (cols : List Line) (i : Int)
    (h0 : 0 ≤ i) (hlt : i.toNat < cols.length) :
    pyIndex cols i = some (cols.getD i.toNat []) := by
  simp only [pyIndex, h0, if_true]
  rw [List.get?_eq_getElem?, List.getElem?_eq_getElem hlt,
    List.getD_eq_getElem _ _ hlt]

theorem mapPyIndex_eq_map (cols : List Line) (ord : List Int)
    (h : ∀ i ∈ ord, 0 ≤ i ∧ i.toNat < cols.length) :
    mapPyIndex cols ord = some (ord.map (fun i => cols.getD i.toNat [])) := by
  induction ord with
  | nil => rfl
  | cons i is ih =>
    have hi := h i (List.mem_cons_self _ _)
    rw [List.map_cons]
    simp only [mapPyIndex, pyIndex_of_bounds cols i hi.1 hi.2,
      ih (fun x hx => h x (List.mem_cons_of_mem _ hx))]
    rfl

theorem sorted_rangeInt (n : Nat) :
    List.Sorted (fun a b => a ≤ b) (rangeInt n) := by
  refine List.Pairwise.map _ ?_ (List.pairwise_le_range n)
  intro a b hab
  exact Int.ofNat_le.mpr hab

/-- The `sorted(order) == list(range(len(order)))` test of
parse_column_order holds exactly when `order` is a permutation of
`0..len(order)-1`. -/
theorem sortedCheck_iff (l : List Int) :
    List.insertionSort (fun a b => a ≤ b) l = rangeInt l.length ↔
      l.Perm (rangeInt l.length) := by
  constructor
  · intro h
    exact h ▸ (List.perm_insertionSort _ l).symm
  · intro h
    refine List.eq_of_perm_of_sorted
      ((List.perm_insertionSort _ l).trans h) ?_ (sorted_rangeInt _)
    exact List.sorted_insertionSort _ l

theorem parse_column_order_ok_check (s : Line) (ord : List Int)
    (h : parse_column_order s = .ok ord) :
    List.insertionSort (fun a b => a ≤ b) ord = rangeInt ord.length := by
  unfold parse_column_order at h
  rcases hm : mapPyInt (pySplitWs (commaToSpace s)) with _ | o <;> rw [hm] at h
  · cases h
  · by_cases hc : List.insertionSort (fun a b => a ≤ b) o = rangeInt o.length
    · simp only [hc, if_true] at h
      cases h
      exact hc
    · simp only [hc, if_false] at h
      cases h

theorem check_bounds (ord : List Int)
    (h : List.insertionSort (fun a b => a ≤ b) ord = rangeInt ord.length) :
    ∀ i ∈ ord, 0 ≤ i ∧ i.toNat < ord.length := by
  have hperm := (sortedCheck_iff ord).mp h
  intro i hi
  have hmem : i ∈ rangeInt ord.length := hperm.mem_iff.mp hi
  unfold rangeInt at hmem
  simp only [List.mem_map, List.mem_range] at hmem
  obtain ⟨m, hm, rfl⟩ := hmem
  exact ⟨Int.ofNat_nonneg m, by simpa using hm⟩

theorem process_table_ok (ord : List Int)
    (hb : ∀ i ∈ ord, 0 ≤ i ∧ i.toNat < ord.length) (tls : List Line)
    (hgood : ∀ l ∈ tls, ∀ cols, parse_table_row l = some cols →
      cols.length = ord.length) :
    ∃ out, process_table tls ord = .ok out := by
  induction tls with
  | nil => exact ⟨[], rfl⟩
  | cons l ls ih =>
    obtain ⟨out, hout⟩ := ih (fun x hx => hgood x (List.mem_cons_of_mem _ hx))
    rcases hp : parse_table_row l with _ | cols
    · refine ⟨l :: out, ?_⟩
      simp only [process_table, hp, hout]
      rfl
    · have hlen : cols.length = ord.length :=
        hgood l (List.mem_cons_self _ _) cols hp
      have hb' : ∀ i ∈ ord, 0 ≤ i ∧ i.toNat < cols.length := by
        intro i hi
        rw [hlen]
        exact hb i hi
      obtain ⟨r, hr⟩ : ∃ r, reorder_columns cols ord = .ok r := by
        unfold reorder_columns
        rw [mapPyIndex_eq_map cols ord hb']
        exact ⟨_, rfl⟩
      refine ⟨(format_table_row r ++ ['\n']) :: out, ?_⟩
      have hne : ¬ (cols.length ≠ ord.length) := by simp [hlen]
      simp only [process_table, hp]
      rw [if_neg hne]
      simp only [hr, hout]
      rfl

theorem process_table_err (ord : List Int)
    (hb : ∀ i ∈ ord, 0 ≤ i ∧ i.toNat < ord.length) (tls : List Line)
    (hbad : ∃ l ∈ tls, ∃ cols, parse_table_row l = some cols ∧
      cols.length ≠ ord.length) :
    ∃ c, c ≠ ord.length ∧
      process_table tls ord = .error (mismatchMsg c ord.length) := by
  induction tls with
  | nil => simp at hbad
  | cons l ls ih =>
    rcases hp : parse_table_row l with _ | cols
    · have hbad' : ∃ x ∈ ls, ∃ cols, parse_table_row x = some cols ∧
          cols.length ≠ ord.length := by
        obtain ⟨x, hx, cols, hxp, hxne⟩ := hbad
        rcases List.mem_cons.mp hx with rfl | hx
        · rw [hp] at hxp
          cases hxp
        · exact ⟨x, hx, cols, hxp, hxne⟩
      obtain ⟨c, hc, herr⟩ := ih hbad'
      refine ⟨c, hc, ?_⟩
      simp only [process_table, hp, herr]
      rfl
    · by_cases hlen : cols.length = ord.length
      · have hbad' : ∃ x ∈ ls, ∃ cols, parse_table_row x = some cols ∧
            cols.length ≠ ord.length := by
          obtain ⟨x, hx, cols', hxp, hxne⟩ := hbad
          rcases List.mem_cons.mp hx with rfl | hx
          · rw [hp] at hxp
            cases hxp
            exact absurd hlen hxne
          · exact ⟨x, hx, cols', hxp, hxne⟩
        obtain ⟨c, hc, herr⟩ := ih hbad'
        have hb' : ∀ i ∈ ord, 0 ≤ i ∧ i.toNat < cols.length := by
          intro i hi
          rw [hlen]
          exact hb i hi
        obtain ⟨r, hr⟩ : ∃ r, reorder_columns cols ord = .ok r := by
          unfold reorder_columns
          rw [mapPyIndex_eq_map cols ord hb']
          exact ⟨_, rfl⟩
        refine ⟨c, hc, ?_⟩
        have hne : ¬ (cols.length ≠ ord.length) := by simp [hlen]
        simp only [process_table, hp]
        rw [if_neg hne]
        simp only [hr, herr]
        rfl
      · refine ⟨cols.length, hlen, ?_⟩
        simp only [process_table, hp]
        rw [if_pos hlen]

theorem find_tables_err_aux (ord : List Int)
    (hb : ∀ i ∈ ord, 0 ≤ i ∧ i.toNat < ord.length) :
    ∀ n (lines : List Line), lines.length ≤ n →
      (∃ l ∈ lines, ∃ cols, parse_table_row l = some cols ∧
        cols.length ≠ ord.length) →
      ∃ c, c ≠ ord.length ∧
        find_and_process_tables lines ord = .error (mismatchMsg c ord.length) := by
  intro n
  induction n with
  | zero =>
    intro lines hlen hbad
    have : lines = [] := List.length_eq_zero.mp (Nat.le_zero.mp hlen)
    subst this
    simp at hbad
  | succ n ih =>
    intro lines hlen hbad
    rcases lines with _ | ⟨l, ls⟩
    · simp at hbad
    · simp only [List.length_cons] at hlen
      by_cases hrow : isRow l
      · by_cases hrunbad : ∃ x ∈ (l :: ls).takeWhile isRow, ∃ cols,
            parse_table_row x = some cols ∧ cols.length ≠ ord.length
        · obtain ⟨c, hc, herr⟩ := process_table_err ord hb _ hrunbad
          refine ⟨c, hc, ?_⟩
          simp only [find_and_process_tables, hrow, if_true, herr]
        · have hgood : ∀ x ∈ (l :: ls).takeWhile isRow, ∀ cols,
              parse_table_row x = some cols → cols.length = ord.length := by
            intro x hx cols hcols
            by_contra hne
            exact hrunbad ⟨x, hx, cols, hcols, hne⟩
          obtain ⟨out, hout⟩ := process_table_ok ord hb _ hgood
          have hbadrest : ∃ x ∈ ls.dropWhile isRow, ∃ cols,
              parse_table_row x = some cols ∧ cols.length ≠ ord.length := by
            obtain ⟨x, hx, cols, hxp, hxne⟩ := hbad
            have hx' : x ∈ (l :: ls).takeWhile isRow ++
                (l :: ls).dropWhile isRow := by
              rw [List.takeWhile_append_dropWhile]
              exact hx
            rcases List.mem_append.mp hx' with h | h
            · exact absurd (hgood x h cols hxp) hxne
            · rw [List.dropWhile_cons_of_pos hrow] at h
              exact ⟨x, h, cols, hxp, hxne⟩
          have hdl : (ls.dropWhile isRow).length ≤ ls.length :=
            (List.dropWhile_sublist _).length_le
          obtain ⟨c, hc, herr⟩ := ih (ls.dropWhile isRow) (by omega) hbadrest
          refine ⟨c, hc, ?_⟩
          simp only [find_and_process_tables, hrow, if_true, hout, herr]
          rfl
      · have hp : parse_table_row l = none := by
          unfold isRow at hrow
          rcases hx : parse_table_row l with _ | v
          · rfl
          · rw [hx] at hrow
            simp at hrow
        have hbad' : ∃ x ∈ ls, ∃ cols, parse_table_row x = some cols ∧
            cols.length ≠ ord.length := by
          obtain ⟨x, hx, cols, hxp, hxne⟩ := hbad
          rcases List.mem_cons.mp hx with rfl | hx
          · rw [hp] at hxp
            cases hxp
          · exact ⟨x, hx, cols, hxp, hxne⟩
        obtain ⟨c, hc, herr⟩ := ih ls (by omega) hbad'
        refine ⟨c, hc, ?_⟩
        simp only [find_and_process_tables, hrow, Bool.false_eq_true,
          if_false, herr]
        rfl

end ReorderColumns

/-! ## Lemmas about split_by_year.py -/

namespace SplitByYear

theorem bucket_addRow_self (m : List (YearKey × List Line)) (k : YearKey)
    (l : Line) : l ∈ bucket (addRow m k l) k := by
  induction m with
  | nil => simp [addRow, bucket]
  | cons p rest ih =>
    obtain ⟨k', rs⟩ := p
    by_cases hk : k' = k
    · simp [addRow, hk, bucket]
    · simp [addRow, hk, bucket, ih]

theorem mem_bucket_addRow (m : List (YearKey × List Line)) (k k' : YearKey)
    (x r : Line) (hx : x ∈ bucket m k) : x ∈ bucket (addRow m k' r) k := by
  induction m with
  | nil => simp [bucket] at hx
  | cons p rest ih =>
    obtain ⟨k'', rs⟩ := p
    simp only [bucket] at hx
    simp only [addRow]
    by_cases h1 : k'' = k'
    · rw [if_pos h1]
      simp only [bucket]
      by_cases h2 : k'' = k
      · rw [if_pos h2] at hx
        rw [if_pos h2]
        exact List.mem_append_left _ hx
      · rw [if_neg h2] at hx
        rw [if_neg h2]
        exact hx
    · rw [if_neg h1]
      simp only [bucket]
      by_cases h2 : k'' = k
      · rw [if_pos h2] at hx
        rw [if_pos h2]
        exact hx
      · rw [if_neg h2] at hx
        rw [if_neg h2]
        exact ih hx

theorem mem_bucket_foldl (rows : List Line) :
    ∀ (m : List (YearKey × List Line)) (l : Line) (k : YearKey),
      (l ∈ bucket m k ∨ (l ∈ rows ∧ rowKey l = some k)) →
      l ∈ bucket (rows.foldl bucketStep m) k := by
  induction rows with
  | nil =>
    intro m l k h
    rcases h with h | ⟨hmem, _⟩
    · exact h
    · simp at hmem
  | cons r rs ih =>
    intro m l k h
    rw [List.foldl_cons]
    apply ih
    rcases h with h | ⟨hmem, hkey⟩
    · left
      unfold bucketStep
      rcases hr : rowKey r with _ | k'
      · exact h
      · exact mem_bucket_addRow m k k' l r h
    · rcases List.mem_cons.mp hmem with rfl | hmem'
      · left
        unfold bucketStep
        rw [hkey]
        exact bucket_addRow_self m k l
      · exact Or.inr ⟨hmem', hkey⟩

theorem any_none_of_mem_bucket (m : List (YearKey × List Line)) (l : Line)
    (hk : l ∈ bucket m none) : m.any (fun p => p.1 = none) = true := by
  induction m with
  | nil => simp [bucket] at hk
  | cons p rest ih =>
    obtain ⟨k', rs⟩ := p
    by_cases h : k' = none
    · simp [h]
    · simp only [bucket, h, if_false] at hk
      simp [ih hk]

theorem none_mem_sortedYears (m : List (YearKey × List Line))
    (hm : m.any (fun p => p.1 = none) = true) : none ∈ sortedYears m := by
  unfold sortedYears
  simp [hm]

theorem rowKey_unknown (l : Line) (hnb : (strip l).isEmpty = false)
    (hpipe : startsW ['|'] (strip l) = true)
    (hcols : 3 ≤ ((splitOnChar '|' l).map strip).length)
    (hdate : parse_date (((splitOnChar '|' l).map strip).getD 2 []) = none) :
    rowKey l = some none := by
  have h3 : ¬ ((splitOnChar '|' l).map strip).length < 3 := by omega
  simp only [rowKey, hnb, hpipe, Bool.not_true, Bool.or_false, Bool.false_or,
    Bool.false_eq_true, if_false]
  rw [if_neg h3, hdate]

end SplitByYear

/-! ## Claim theorems for reverse_table.py -/

/-- C2: keep-header reversal of a table block: at most 2 rows is returned
unchanged; otherwise the output is rows 0 and 1 followed by rows 2..end
reversed; for any block with at least 2 rows the first two output rows are
identical to the first two input rows. -/
theorem C2_keep_header_block (b : List Line) :
    (b.length ≤ 2 → ReverseTable.process_table b true = b) ∧
    (2 < b.length →
      ReverseTable.process_table b true = b.take 2 ++ (b.drop 2).reverse) ∧
    (2 ≤ b.length → (ReverseTable.process_table b true).take 2 = b.take 2) := by
  refine ⟨ReverseTable.process_table_keep_of_le b,
    ReverseTable.process_table_keep_of_lt b, ?_⟩
  intro h
  by_cases h2 : b.length ≤ 2
  · rw [ReverseTable.process_table_keep_of_le b h2]
  · rw [ReverseTable.process_table_keep_of_lt b (by omega)]
    have hlen : (b.take 2).length = 2 := by
      rw [List.length_take]; omega
    simp [List.take_left' hlen]

/-- Witness for C2 at concrete blocks. -/
theorem C2_keep_header_block_witness :
    (ReverseTable.process_table ["| a |".data, "| b |".data] true
      = ["| a |".data, "| b |".data]) ∧
    (ReverseTable.process_table
        ["| h |".data, "| - |".data, "| x |".data, "| y |".data] true
      = ["| h |".data, "| - |".data, "| y |".data, "| x |".data]) ∧
    ((ReverseTable.process_table
        ["| h |".data, "| - |".data, "| x |".data] true).take 2
      = ["| h |".data, "| - |".data]) := by
  refine ⟨(C2_keep_header_block _).1 (by decide), ?_, ?_⟩
  · rw [(C2_keep_header_block _).2.1 (by decide)]
    rfl
  · rw [(C2_keep_header_block _).2.2 (by decide)]
    rfl

/-- C3: no-header reversal: a block with at most 2 rows is simply reversed;
a longer block is fully reversed and the first row containing one of the
separator substrings is, when not already at index 1, moved to index 1;
in particular a 4-row block whose only separator-marked row is row 1
becomes [row3, row1, row2, row0]. -/
theorem C3_no_header_block :
    (∀ b : List Line, b.length ≤ 2 →
      ReverseTable.process_table b false = b.reverse) ∧
    (∀ b : List Line, 2 < b.length →
      ReverseTable.process_table b false = ReverseTable.moveSepTo1 b.reverse) ∧
    (∀ hdr sep r1 r2 : Line, ReverseTable.sepMark sep = true →
      ReverseTable.sepMark r1 = false → ReverseTable.sepMark r2 = false →
      ReverseTable.process_table [hdr, sep, r1, r2] false = [r2, sep, r1, hdr]) := by
  refine ⟨?_, ?_, ?_⟩
  · intro b h
    by_cases h1 : b.length ≤ 1
    · rcases b with _ | ⟨x, _ | ⟨y, t⟩⟩ <;> simp_all [ReverseTable.process_table]
    · simp [ReverseTable.process_table, h1, h]
  · intro b h
    have h1 : ¬ b.length ≤ 1 := by omega
    have h2 : ¬ b.length ≤ 2 := by omega
    simp [ReverseTable.process_table, h1, h2]
  · intro hdr sep r1 r2 hs h1 h2
    simp [ReverseTable.process_table, ReverseTable.moveSepTo1,
      ReverseTable.findSepIdx, hs, h1, h2, List.eraseIdx]

/-- Witness for C3 at concrete blocks. -/
theorem C3_no_header_block_witness :
    (ReverseTable.process_table ["| a |".data, "| b |".data] false
      = ["| b |".data, "| a |".data]) ∧
    (ReverseTable.process_table
        ["| h |".data, "| --- |".data, "| x |".data, "| y |".data] false
      = ["| y |".data, "| --- |".data, "| x |".data, "| h |".data]) := by
  constructor
  · rw [C3_no_header_block.1 _ (by decide)]
    rfl
  · exact C3_no_header_block.2.2 _ _ _ _ (by decide) (by decide) (by decide)

/-- C10: keep-header table reversal is an involution on whole documents:
applying reverse_markdown_table with keep_header twice returns the input
string unchanged. -/
theorem C10_reverse_markdown_table_involutive (content : Line) :
    ReverseTable.reverse_markdown_table
      (ReverseTable.reverse_markdown_table content true) true = content := by
  unfold ReverseTable.reverse_markdown_table
  have hne : splitOnChar '\n' content ≠ [] := splitOnChar_ne_nil _ _
  have hfree : ∀ p ∈ splitOnChar '\n' content, '\n' ∉ p :=
    not_mem_of_mem_splitOnChar _ _
  have hout_ne : ReverseTable.rmtAux true (splitOnChar '\n' content) [] ≠ [] :=
    ReverseTable.rmtAux_ne_nil _ _ _ (Or.inl hne)
  have hout_free :
      ∀ p ∈ ReverseTable.rmtAux true (splitOnChar '\n' content) [], '\n' ∉ p := by
    intro p hp
    rcases ReverseTable.mem_rmtAux _ _ _ _ hp with h | h
    · simp at h
    · exact hfree p h
  rw [splitOnChar_intercalateC '\n' _ hout_ne hout_free,
    ReverseTable.rmtAux_keep_involutive _ [] (by simp), List.nil_append]
  exact intercalateC_splitOnChar '\n' content

/-! ## Claim theorems for parse_frontmatter (reorder_columns.py) -/

/-- C5 counterexample: the first line `----` does not strip to exactly
`---`, yet parse_frontmatter does not return ([], allLines): the opening
test in the source is startswith, not equality, so `----` opens a
frontmatter block. -/
theorem C5_counterexample :
    strip ("----".data) ≠ "---".data ∧
    ReorderColumns.parse_frontmatter ["----".data, "a".data, "---".data] ≠
      ([], ["----".data, "a".data, "---".data]) := by
  constructor <;> decide

/-- C5 amended: if the first line, after stripping, does not START WITH
`---`, or no later line strips to something starting with `---`, the
extractor returns ([], allLines); an empty input also yields ([], []). -/
theorem C5_no_frontmatter (lines : List Line) :
    (lines = [] → ReorderColumns.parse_frontmatter lines = ([], lines)) ∧
    (∀ l0 rest, lines = l0 :: rest →
      startsW ("---".data) (strip l0) = false →
      ReorderColumns.parse_frontmatter lines = ([], lines)) ∧
    (∀ l0 rest, lines = l0 :: rest →
      (∀ l ∈ rest, startsW ("---".data) (strip l) = false) →
      ReorderColumns.parse_frontmatter lines = ([], lines)) := by
  refine ⟨?_, ?_, ?_⟩
  · intro h; subst h; rfl
  · intro l0 rest h h0
    subst h
    simp [ReorderColumns.parse_frontmatter, h0]
  · intro l0 rest h hrest
    subst h
    by_cases h0 : startsW ("---".data) (strip l0)
    · simp only [ReorderColumns.parse_frontmatter, h0, if_true,
        ReorderColumns.fmLoop_none rest [l0] hrest]
    · simp [ReorderColumns.parse_frontmatter, h0]

/-- Witness for C5 amended at concrete inputs. -/
theorem C5_no_frontmatter_witness :
    ReorderColumns.parse_frontmatter [] = ([], []) ∧
    ReorderColumns.parse_frontmatter ["x".data, "---".data] =
      ([], ["x".data, "---".data]) ∧
    ReorderColumns.parse_frontmatter ["---".data, "body".data] =
      ([], ["---".data, "body".data]) := by
  refine ⟨(C5_no_frontmatter []).1 rfl, ?_, ?_⟩
  · exact (C5_no_frontmatter _).2.1 _ _ rfl (by decide)
  · exact (C5_no_frontmatter _).2.2 _ _ rfl (by decide)

/-- C8: for a permutation `order` of 0..n-1 with inverse `inv` (the
permutation with `order[inv[k]] = k`) and a row of exactly n cells,
reordering with `order` and then with `inv` restores the original cells. -/
theorem C8_reorder_roundtrip (cells : List Line) (order inv : List Int)
    (hlen : order.length = cells.length) (hilen : inv.length = cells.length)
    (hord : ∀ i ∈ order, 0 ≤ i ∧ i.toNat < cells.length)
    (hinv : ∀ i ∈ inv, 0 ≤ i ∧ i.toNat < cells.length)
    (hcomp : ∀ k, k < cells.length →
      order.getD (inv.getD k 0).toNat 0 = (k : Int)) :
    ∃ mid, ReorderColumns.reorder_columns cells order = .ok mid ∧
      ReorderColumns.reorder_columns mid inv = .ok cells := by
  refine ⟨order.map (fun i => cells.getD i.toNat []), ?_, ?_⟩
  · unfold ReorderColumns.reorder_columns
    rw [ReorderColumns.mapPyIndex_eq_map cells order hord]
  · unfold ReorderColumns.reorder_columns
    have hmidlen : (order.map (fun i => cells.getD i.toNat [])).length
        = cells.length := by
      rw [List.length_map, hlen]
    have hinv' : ∀ i ∈ inv, 0 ≤ i ∧
        i.toNat < (order.map (fun i => cells.getD i.toNat [])).length := by
      intro i hi
      rw [hmidlen]
      exact hinv i hi
    rw [ReorderColumns.mapPyIndex_eq_map _ inv hinv']
    have : inv.map
        (fun k => (order.map (fun i => cells.getD i.toNat [])).getD k.toNat [])
        = cells := by
      apply List.ext_getElem
      · rw [List.length_map, hilen]
      · intro k hk1 hk2
        rw [List.getElem_map]
        have hk : k < cells.length := hk2
        have hkinv : k < inv.length := by rw [hilen]; exact hk
        have hmem : inv[k] ∈ inv := List.getElem_mem hkinv
        have hb := hinv _ hmem
        have hjb : (inv[k]).toNat < order.length := by rw [hlen]; exact hb.2
        rw [List.getD_eq_getElem _ _ (by rw [hmidlen]; exact hb.2),
          List.getElem_map]
        have hok : order[(inv[k]).toNat] = (k : Int) := by
          have h1 : inv.getD k 0 = inv[k] := List.getD_eq_getElem _ _ hkinv
          have h2 := hcomp k hk
          rw [h1] at h2
          rw [← h2]
          exact (List.getD_eq_getElem _ _ hjb).symm
        rw [hok]
        simp only [Int.toNat_ofNat]
        exact List.getD_eq_getElem _ _ hk
    rw [this]

/-- Witness for C8: order [2,0,1] and its inverse [1,2,0] on three cells. -/
theorem C8_reorder_roundtrip_witness :
    ∃ mid, ReorderColumns.reorder_columns ["a".data, "b".data, "c".data]
        [2, 0, 1] = .ok mid ∧
      ReorderColumns.reorder_columns mid [1, 2, 0] =
        .ok ["a".data, "b".data, "c".data] :=
  C8_reorder_roundtrip _ _ _ (by decide) (by decide) (by decide) (by decide)
    (by decide)

/-- C9: parse_column_order returns the integer list exactly when the
comma/space-separated tokens all parse as ints and form a permutation of
0..n-1 (n the token count — equivalently the list's length); every other
string yields a ValueError, raised in main before any table row is
touched (exit 1, nothing written, whatever the file contains). -/
theorem C9_parse_column_order_spec (s : Line) :
    (∀ l, ReorderColumns.parse_column_order s = .ok l ↔
      (ReorderColumns.mapPyInt
          (ReorderColumns.pySplitWs (ReorderColumns.commaToSpace s)) = some l ∧
        l.Perm (ReorderColumns.rangeInt l.length))) ∧
    (∀ e fileLines, ReorderColumns.parse_column_order s = .error e →
      ReorderColumns.main_reorder s fileLines = (1, none)) := by
  constructor
  · intro l
    unfold ReorderColumns.parse_column_order
    rcases hm : ReorderColumns.mapPyInt
        (ReorderColumns.pySplitWs (ReorderColumns.commaToSpace s)) with _ | o
    · simp
    · by_cases hc : List.insertionSort (fun a b => a ≤ b) o =
          ReorderColumns.rangeInt o.length
      · simp only [hc, if_true]
        constructor
        · intro h
          cases h
          exact ⟨rfl, (ReorderColumns.sortedCheck_iff _).mp hc⟩
        · intro ⟨h1, _⟩
          cases h1
          rfl
      · simp only [hc, if_false]
        constructor
        · intro h; cases h
        · intro ⟨h1, h2⟩
          cases h1
          exact absurd ((ReorderColumns.sortedCheck_iff _).mpr h2) hc
  · intro e fileLines h
    unfold ReorderColumns.main_reorder
    rw [h]

/-- Witness for C9: a valid permutation string parses; a duplicate-index
string makes main exit 1 with no output. -/
theorem C9_parse_column_order_spec_witness :
    ReorderColumns.parse_column_order "2,0,1".data = .ok [2, 0, 1] ∧
    ReorderColumns.main_reorder "0,0".data ["| a | b |".data] = (1, none) := by
  constructor
  · exact ((C9_parse_column_order_spec _).1 [2, 0, 1]).mpr ⟨by decide, by decide⟩
  · exact (C9_parse_column_order_spec _).2
      ("Invalid column order format: Column order must be a permutation of column indices starting from 0".data)
      _ (by rfl)

/-- C1: with a validated column order, if any table row of the body splits
into a cell count different from the order's length, processing raises the
ValueError naming the actual and the expected counts, and main exits 1
writing no output (the input file stays unchanged). -/
theorem C1_column_mismatch_aborts (fileLines : List Line) (order_str : Line)
    (order : List Int)
    (hparse : ReorderColumns.parse_column_order order_str = .ok order)
    (hbad : ∃ l ∈ (ReorderColumns.parse_frontmatter fileLines).2, ∃ cols,
      ReorderColumns.parse_table_row l = some cols ∧
        cols.length ≠ order.length) :
    (∃ c, c ≠ order.length ∧
      ReorderColumns.run_reorder fileLines order =
        .error (ReorderColumns.mismatchMsg c order.length)) ∧
    ReorderColumns.main_reorder order_str fileLines = (1, none) := by
  have hcheck := ReorderColumns.parse_column_order_ok_check _ _ hparse
  have hb := ReorderColumns.check_bounds order hcheck
  obtain ⟨c, hc, herr⟩ := ReorderColumns.find_tables_err_aux order hb
    (ReorderColumns.parse_frontmatter fileLines).2.length _ le_rfl hbad
  constructor
  · refine ⟨c, hc, ?_⟩
    unfold ReorderColumns.run_reorder
    rw [herr]
  · simp only [ReorderColumns.main_reorder, hparse,
      ReorderColumns.run_reorder, herr]

/-- Witness for C1: a 2-column order against a table containing a 1-cell
row aborts with the mismatch error and writes nothing. -/
theorem C1_column_mismatch_aborts_witness :
    (∃ c, c ≠ ([0, 1] : List Int).length ∧
      ReorderColumns.run_reorder ["| a | b |\n".data, "| c |\n".data] [0, 1] =
        .error (ReorderColumns.mismatchMsg c ([0, 1] : List Int).length)) ∧
    ReorderColumns.main_reorder "0,1".data
        ["| a | b |\n".data, "| c |\n".data] = (1, none) := by
  refine C1_column_mismatch_aborts _ _ _ (by rfl) ?_
  exact ⟨"| c |\n".data, by decide, [" c ".data], by decide, by decide⟩

/-! ## Claim theorems for split_by_year.py -/

/-- C4: on a document whose table has exactly the three data rows dated
"November 29, 2024", "December 31, 2023" and "not a date", exactly three
files are produced — `<stem>_2023.md` and `<stem>_2024.md` with one data
row each and `<stem>_unknown_dates.md` with one — in ascending year order
with the unknown file last, each holding the frontmatter verbatim plus a
blank line, then the header, the separator, and that bucket's rows. -/
theorem C4_year_split_example :
    (((splitOnChar '|' ("| A | November 29, 2024 |\n".data)).map
      strip).getD 2 [] = "November 29, 2024".data) ∧
    (((splitOnChar '|' ("| B | December 31, 2023 |\n".data)).map
      strip).getD 2 [] = "December 31, 2023".data) ∧
    (((splitOnChar '|' ("| C | not a date |\n".data)).map
      strip).getD 2 [] = "not a date".data) ∧
    SplitByYear.split_markdown_by_year "daily".data
      ["---\n".data, "tag: x\n".data, "---\n".data, "\n".data,
       "| Name | date |\n".data,
       "| --- | --- |\n".data,
       "| A | November 29, 2024 |\n".data,
       "| B | December 31, 2023 |\n".data,
       "| C | not a date |\n".data] =
    some
      [("daily_2023.md".data,
        ["---\n".data, "tag: x\n".data, "---\n".data, "\n".data,
         "| Name | date |\n".data, "| --- | --- |\n".data,
         "| B | December 31, 2023 |\n".data]),
       ("daily_2024.md".data,
        ["---\n".data, "tag: x\n".data, "---\n".data, "\n".data,
         "| Name | date |\n".data, "| --- | --- |\n".data,
         "| A | November 29, 2024 |\n".data]),
       ("daily_unknown_dates.md".data,
        ["---\n".data, "tag: x\n".data, "---\n".data, "\n".data,
         "| Name | date |\n".data, "| --- | --- |\n".data,
         "| C | not a date |\n".data])] := by
  refine ⟨by decide, by decide, by decide, by decide⟩

/-- C6 counterexample: in both failure cases — missing input file and no
recognizable header — the script reports an error and writes nothing, but
the process exit code is 0, not non-zero: split_markdown_by_year prints
and returns, and the main guard only exits 1 for a wrong argument count. -/
theorem C6_counterexample :
    SplitByYear.script_run "daily".data none =
      ⟨0, [], true⟩ ∧
    SplitByYear.script_run "daily".data (some ["no table here\n".data]) =
      ⟨0, [], true⟩ := by
  exact ⟨rfl, rfl⟩

/-- C6 amended: with a missing input file, or with no table header line
containing `|`, `Name` and `date`, an error is reported and no output file
is written — but the process exit code is 0 in both cases. -/
theorem C6_error_exits_zero (stem : Line) :
    SplitByYear.script_run stem none =
      ⟨0, [], true⟩ ∧
    (∀ lines, SplitByYear.findHeader
        (lines.drop (SplitByYear.metaScan lines).2) = none →
      SplitByYear.script_run stem (some lines) = ⟨0, [], true⟩) := by
  refine ⟨rfl, ?_⟩
  intro lines h
  simp only [SplitByYear.script_run, SplitByYear.split_markdown_by_year, h]

/-- Witness for C6 amended at a concrete header-less document. -/
theorem C6_error_exits_zero_witness :
    SplitByYear.script_run "daily".data none =
      ⟨0, [], true⟩ ∧
    SplitByYear.script_run "daily".data (some ["just text\n".data]) =
      ⟨0, [], true⟩ :=
  ⟨(C6_error_exits_zero _).1, (C6_error_exits_zero _).2 _ (by decide)⟩

/-- C7 counterexample: `|x` after the separator is a non-blank data row
starting with `|` with no parseable date (it has fewer than three
`|`-split columns, so its date cell is the empty default), yet the split
produces no file at all — the row is silently dropped by the
`len(columns) < 3` skip, not routed to the unknown bucket. -/
theorem C7_counterexample :
    ((strip ("|x".data)).isEmpty = false) ∧
    (startsW ['|'] (strip ("|x".data)) = true) ∧
    ((splitOnChar '|' ("|x".data)).length < 3) ∧
    SplitByYear.parse_date
      (((splitOnChar '|' ("|x".data)).map strip).getD 2 []) = none ∧
    SplitByYear.rowKey ("|x".data) = none ∧
    SplitByYear.split_markdown_by_year "d".data
      ["| Name | date |".data, "| - |".data, "|x".data] = some [] := by
  refine ⟨rfl, rfl, by decide, by decide, by decide, by decide⟩

/-- C7 amended: every data row that in addition splits on `|` into at
least three parts and whose date cell (index 2) fails to parse is placed
in the unknown bucket and written to the `_unknown_dates` file (rows with
fewer than three parts are skipped instead). -/
theorem C7_unknown_rows_routed (stem : Line) (doc : List Line)
    (header : Line) (sep : Option Line) (rows : List Line) (l : Line)
    (hfind : SplitByYear.findHeader
      (doc.drop (SplitByYear.metaScan doc).2) = some (header, sep, rows))
    (hl : l ∈ rows)
    (hnb : (strip l).isEmpty = false)
    (hpipe : startsW ['|'] (strip l) = true)
    (hcols : 3 ≤ ((splitOnChar '|' l).map strip).length)
    (hdate : SplitByYear.parse_date
      (((splitOnChar '|' l).map strip).getD 2 []) = none) :
    l ∈ SplitByYear.bucket (SplitByYear.rows_by_year rows) none ∧
    ∃ files, SplitByYear.split_markdown_by_year stem doc = some files ∧
      (SplitByYear.fileName stem none,
        SplitByYear.fileFor (SplitByYear.metaScan doc).1 header sep
          (SplitByYear.bucket (SplitByYear.rows_by_year rows) none)) ∈
        files ∧
      l ∈ SplitByYear.fileFor (SplitByYear.metaScan doc).1 header sep
        (SplitByYear.bucket (SplitByYear.rows_by_year rows) none) := by
  have hkey : SplitByYear.rowKey l = some none :=
    SplitByYear.rowKey_unknown l hnb hpipe hcols hdate
  have hbuck : l ∈ SplitByYear.bucket (SplitByYear.rows_by_year rows) none :=
    SplitByYear.mem_bucket_foldl rows [] l none (Or.inr ⟨hl, hkey⟩)
  have hany := SplitByYear.any_none_of_mem_bucket _ _ hbuck
  have hsy := SplitByYear.none_mem_sortedYears _ hany
  refine ⟨hbuck,
    (SplitByYear.sortedYears (SplitByYear.rows_by_year rows)).map
      (fun k => (SplitByYear.fileName stem k,
        SplitByYear.fileFor (SplitByYear.metaScan doc).1 header sep
          (SplitByYear.bucket (SplitByYear.rows_by_year rows) k))),
    ?_, ?_, ?_⟩
  · simp only [SplitByYear.split_markdown_by_year, hfind]
  · exact List.mem_map_of_mem _ hsy
  · simp [SplitByYear.fileFor, hbuck]

/-- Witness for C7 amended: a concrete document with a "not a date" row
lands in the unknown-dates file. -/
theorem C7_unknown_rows_routed_witness :
    "| C | not a date |\n".data ∈
      SplitByYear.bucket
        (SplitByYear.rows_by_year ["| C | not a date |\n".data]) none ∧
    ∃ files, SplitByYear.split_markdown_by_year "d".data
        ["| Name | date |\n".data, "| --- | --- |\n".data,
         "| C | not a date |\n".data] = some files ∧
      (SplitByYear.fileName "d".data none,
        SplitByYear.fileFor [] ("| Name | date |\n".data)
          (some ("| --- | --- |\n".data))
          (SplitByYear.bucket
            (SplitByYear.rows_by_year ["| C | not a date |\n".data]) none)) ∈
        files ∧
      "| C | not a date |\n".data ∈
        SplitByYear.fileFor [] ("| Name | date |\n".data)
          (some ("| --- | --- |\n".data))
          (SplitByYear.bucket
            (SplitByYear.rows_by_year ["| C | not a date |\n".data]) none) := by
  have h := C7_unknown_rows_routed "d".data
    ["| Name | date |\n".data, "| --- | --- |\n".data,
     "| C | not a date |\n".data]
    ("| Name | date |\n".data) (some ("| --- | --- |\n".data))
    ["| C | not a date |\n".data] ("| C | not a date |\n".data)
    (by decide) (by decide) (by decide) (by decide) (by decide) (by decide)
  simpa using h

end MdScripts
